import Mathlib

/-!
# Verification of the `gomap` LinkedTTLMap

A shallow embedding of the ordered TTL-aware map of the `gomap` repository
(`linked_ttl_map.go`, `ttl_map.go`, `map.go`) together with proofs of the
specified properties.

Modelling conventions:
* Go's `interface{}` value type is a type parameter `α`; a `nil` value result
  is `Option.none`.
* Wall-clock instants (`time.Now().UnixNano()`) and durations are `Int`
  nanoseconds; every operation that reads the clock takes an explicit `now`
  argument.
* The Go hash map `entryMap` is rendered as an association list with unique
  keys (Go map keys are unique); the `nil` map of a destroyed instance is
  `Option.none`.
* The doubly linked node order (`head`/`tail`, `before`/`after` pointers) is
  rendered as `chain`, the list of nodes from head to tail; `head` is
  `chain.head?` and `tail` is `chain.getLast?`.  In-place splicing of a
  replacement node corresponds to replacing the node with that key in `chain`;
  unlinking corresponds to removing it.
* A `panic(errors.New(ErrMapDestroyed))` is modelled as an `Except.error`.
* Operations are modelled sequentially (each public operation is one atomic
  step, as enforced by the per-map lock); the lock-acquisition behaviour of
  `Destroy` is modelled separately after the operations.
* Two models are developed.  The first renders the two structures as plain
  lists and describes the *intended* list-level effect of the pointer code;
  it is used only for properties whose executions stay on code paths where it
  agrees with the source (key-absent stores, whole-structure operations,
  read-only traversals, destroyed-state checks).  The second,
  `PtrLinkedTTLMap`, is pointer-accurate — nodes live in a heap addressed by
  `Nat` and the Go statements are replayed one by one — and reproduces two
  bugs of the source that the list-level model cannot express: the shadowed
  `entry :=` of `store` (linked_ttl_map.go:89, the index keeps the old node on
  overwrite) and the premature `item.after = nil` of `delete`
  (linked_ttl_map.go:168, deleting a node with a successor orphans the rest of
  the chain).  Properties that hinge on those two paths are settled against
  the pointer-accurate model.
-/

set_option linter.unusedVariables false
set_option linter.unnecessarySimpa false

namespace Gomap

variable {α : Type}

/-- Go `Entry` (map.go): the key/value pair surfaced by `Clear` and
`DeleteExpired`. -/
structure Entry (α : Type) where
  Key : String
  Value : α
deriving DecidableEq

/-- Go `ttlEntry` as used by `linked_ttl_map.go`: an embedded `Entry` plus the
absolute deadline `expiration` in nanoseconds.  The linked variant
(`linkedTTLEntry`) adds only the `before`/`after` pointers, which are
represented by the node's position in the chain list. -/
structure ttlEntry (α : Type) where
  entry : Entry α
  expiration : Int
deriving DecidableEq

/-- Field promotion of the embedded `Entry`: `e.Key`. -/
def ttlEntry.Key (e : ttlEntry α) : String := e.entry.Key

/-- Field promotion of the embedded `Entry`: `e.Value`. -/
def ttlEntry.Value (e : ttlEntry α) : α := e.entry.Value

/-- Go `ttlEntry.expired` (ttl_map.go): a non-positive deadline never expires;
otherwise the entry is expired once `now` is strictly past the deadline. -/
def ttlEntry.expired (e : ttlEntry α) (now : Int) : Bool :=
  if e.expiration ≤ 0 then false else decide (e.expiration < now)

/-- Go `ttlEntry.renew` (ttl_map.go): no-op on an expired entry, otherwise the
deadline becomes `now + expiration` (Go: `time.Now().Add(expiration)`). -/
def ttlEntry.renew (e : ttlEntry α) (expiration now : Int) : ttlEntry α :=
  if e.expired now then e else { e with expiration := now + expiration }

/-- Go `ErrMapDestroyed` (map.go). -/
def ErrMapDestroyed : String := "ErrMapDestroyed"

/-- Go `LinkedTTLMap` (linked_ttl_map.go).  `gcInterval`, the lock and the
exit channel carry no sequential-step content and are omitted from the state;
`gcInterval` is still accepted by the constructor. -/
structure LinkedTTLMap (α : Type) where
  entryMap : Option (List (String × ttlEntry α))
  expiration : Int
  renewOnLoad : Bool
  chain : List (ttlEntry α)
deriving DecidableEq

/-- Go `NewLinkedTTLMap`. -/
def NewLinkedTTLMap (α : Type) (expiration gcInterval : Int) (renewOnLoad : Bool) : LinkedTTLMap α :=
  { entryMap := some []
    expiration := expiration
    renewOnLoad := renewOnLoad
    chain := [] }

/-- Go map read `m.entryMap[key]`. -/
def lookupKey : List (String × ttlEntry α) → String → Option (ttlEntry α)
  | [], _ => none
  | p :: rest, key => if p.1 = key then some p.2 else lookupKey rest key

/-- Go map write `m.entryMap[key] = e` for a key that is already present
(the pair with that key is replaced). -/
def setKey (em : List (String × ttlEntry α)) (key : String) (e : ttlEntry α) : List (String × ttlEntry α) :=
  em.map fun p => if p.1 = key then (key, e) else p

/-- Go `delete(m.entryMap, key)`. -/
def removeKey (em : List (String × ttlEntry α)) (key : String) : List (String × ttlEntry α) :=
  em.filter fun p => p.1 ≠ key

/-- The `before`/`after` rewiring of `LinkedTTLMap.store` on an existing key:
the freshly allocated node takes the old node's place in the order. -/
def chainReplace (chain : List (ttlEntry α)) (key : String) (e : ttlEntry α) : List (ttlEntry α) :=
  chain.map fun n => if n.Key = key then e else n

/-- The intended unlink of `LinkedTTLMap.delete` at the list level: the node
with the given key leaves the order (faithful to the source only when that
node has no successor; see `unlink` below for the exact pointer surgery). -/
def chainRemove (chain : List (ttlEntry α)) (key : String) : List (ttlEntry α) :=
  chain.filter fun n => n.Key ≠ key

/-- The deadline computation at the top of Go `LinkedTTLMap.store`
(linked_ttl_map.go:81-86): `now + ttl` when the configured TTL is positive,
the sentinel `-1` ("never expires") otherwise. -/
def deadlineOf (ttl now : Int) : Int :=
  if 0 < ttl then now + ttl else -1

/-- The *intended* list-level effect of Go `LinkedTTLMap.store`
(linked_ttl_map.go:80-130): compute the deadline; if the key is present,
splice a replacement node into the old node's position in both structures,
else append a new node at the tail and index it.  CAVEAT: in the source the
key-present branch does NOT behave like this — the inner `entry :=` (line 89)
shadows the outer `entry`, so line 129 re-inserts the OLD node into the hash
index; see `PtrLinkedTTLMap.store` below for the pointer-accurate version.
The theorems stated over this definition only ever exercise its key-absent
branch, where it agrees with the source. -/
def LinkedTTLMap.store (ttl : Int) (em : List (String × ttlEntry α)) (chain : List (ttlEntry α)) (key : String) (value : α) (now : Int) : List (String × ttlEntry α) × List (ttlEntry α) :=
  let e : ttlEntry α := ⟨⟨key, value⟩, deadlineOf ttl now⟩
  match lookupKey em key with
  | some _ => (setKey em key e, chainReplace chain key e)
  | none => (em ++ [(key, e)], chain ++ [e])

/-- Go `LinkedTTLMap.Store`: destroyed check, then `store`. -/
def LinkedTTLMap.Store (m : LinkedTTLMap α) (key : String) (value : α) (now : Int) : Except String (LinkedTTLMap α) :=
  match m.entryMap with
  | none => .error ErrMapDestroyed
  | some em =>
    let r := LinkedTTLMap.store m.expiration em m.chain key value now
    .ok { m with entryMap := some r.1, chain := r.2 }

/-- The *intended* list-level effect of Go `LinkedTTLMap.delete`
(linked_ttl_map.go:161-179): the node's key leaves the hash index and the node
leaves the order; `item.Value` is returned unconditionally (the function
performs no staleness check).  CAVEAT: the source's unlink is buggy — line 168
nils `item.after` before lines 173/176 read it, so deleting a node that has a
successor also orphans the rest of the chain; see `unlink` below for the
pointer-accurate version.  The theorems stated over this definition only ever
delete a node without a successor, where it agrees with the source. -/
def LinkedTTLMap.deleteNode (em : List (String × ttlEntry α)) (chain : List (ttlEntry α)) (key : String) : List (String × ttlEntry α) × List (ttlEntry α) :=
  (removeKey em key, chainRemove chain key)

/-- Go `LinkedTTLMap.Load` (linked_ttl_map.go:141-159): absent key gives
`(nil, false)`; a present expired node is lazily deleted and `(nil, false)` is
returned; a fresh node is renewed when `renewOnLoad` (the shared node changes
in both structures) and its value returned. -/
def LinkedTTLMap.Load (m : LinkedTTLMap α) (key : String) (now : Int) : Except String ((Option α × Bool) × LinkedTTLMap α) :=
  match m.entryMap with
  | none => .error ErrMapDestroyed
  | some em =>
    match lookupKey em key with
    | some item =>
      if item.expired now then
        let r := LinkedTTLMap.deleteNode em m.chain key
        .ok ((none, false), { m with entryMap := some r.1, chain := r.2 })
      else if m.renewOnLoad then
        let item' := item.renew m.expiration now
        .ok ((some item'.Value, true), { m with entryMap := some (setKey em key item'), chain := chainReplace m.chain key item' })
      else
        .ok ((some item.Value, true), m)
    | none => .ok ((none, false), m)

/-- Go `LinkedTTLMap.LoadOrStore` (linked_ttl_map.go:181-198): a present fresh
node is returned with `loaded = true` (renewed when `renewOnLoad`); otherwise
`store` runs and `(value, false)` is returned. -/
def LinkedTTLMap.LoadOrStore (m : LinkedTTLMap α) (key : String) (value : α) (now : Int) : Except String ((α × Bool) × LinkedTTLMap α) :=
  match m.entryMap with
  | none => .error ErrMapDestroyed
  | some em =>
    match lookupKey em key with
    | some item =>
      if item.expired now then
        let r := LinkedTTLMap.store m.expiration em m.chain key value now
        .ok ((value, false), { m with entryMap := some r.1, chain := r.2 })
      else if m.renewOnLoad then
        let item' := item.renew m.expiration now
        .ok ((item'.Value, true), { m with entryMap := some (setKey em key item'), chain := chainReplace m.chain key item' })
      else
        .ok ((item.Value, true), m)
    | none =>
      let r := LinkedTTLMap.store m.expiration em m.chain key value now
      .ok ((value, false), { m with entryMap := some r.1, chain := r.2 })

/-- Go `LinkedTTLMap.StoreOrCompare` (linked_ttl_map.go:200-219): on a present
fresh node, renew it and, when a compare function is given, replace its value
by `compare(stored, input)` (the shared node changes in both structures);
otherwise `store` runs. -/
def LinkedTTLMap.StoreOrCompare (m : LinkedTTLMap α) (key : String) (value : α) (compare : Option (α → α → α)) (now : Int) : Except String (LinkedTTLMap α) :=
  match m.entryMap with
  | none => .error ErrMapDestroyed
  | some em =>
    match lookupKey em key with
    | some item =>
      if item.expired now then
        let r := LinkedTTLMap.store m.expiration em m.chain key value now
        .ok { m with entryMap := some r.1, chain := r.2 }
      else
        let item1 := item.renew m.expiration now
        let item2 := match compare with
          | some f => { item1 with entry := { item1.entry with Value := f item1.Value value } }
          | none => item1
        .ok { m with entryMap := some (setKey em key item2), chain := chainReplace m.chain key item2 }
    | none =>
      let r := LinkedTTLMap.store m.expiration em m.chain key value now
      .ok { m with entryMap := some r.1, chain := r.2 }

/-- Go `LinkedTTLMap.Delete` (linked_ttl_map.go:221-231): a present key is
removed via `delete` and `item.Value` is returned (stale or not); an absent
key gives `nil`. -/
def LinkedTTLMap.Delete (m : LinkedTTLMap α) (key : String) : Except String (Option α × LinkedTTLMap α) :=
  match m.entryMap with
  | none => .error ErrMapDestroyed
  | some em =>
    match lookupKey em key with
    | some item =>
      let r := LinkedTTLMap.deleteNode em m.chain key
      .ok (some item.Value, { m with entryMap := some r.1, chain := r.2 })
    | none => .ok (none, m)

/-- Go `LinkedTTLMap.Clear` (linked_ttl_map.go:233-256): detach the chain and
reset both structures under the lock, then walk the detached chain outside the
lock collecting the entries that are not expired, in former order. -/
def LinkedTTLMap.Clear (m : LinkedTTLMap α) (now : Int) : Except String (List (Entry α) × LinkedTTLMap α) :=
  match m.entryMap with
  | none => .error ErrMapDestroyed
  | some _ =>
    .ok ((m.chain.filter fun n => !n.expired now).map fun n => n.entry,
      { m with entryMap := some [], chain := [] })

/-- The loop body of Go `LinkedTTLMap.Range` (linked_ttl_map.go:258-273):
walk the chain head to tail; an expired node is passed over (no delete call);
on a fresh node the visitor runs, and a `false` result breaks the loop.
Returns the entries the visitor was invoked on, in visit order.  The body
performs no mutation (in particular no renew call). -/
def LinkedTTLMap.rangeVisit (f : String → α → Bool) (now : Int) : List (ttlEntry α) → List (Entry α)
  | [] => []
  | n :: rest =>
    if n.expired now then LinkedTTLMap.rangeVisit f now rest
    else if f n.Key n.Value then n.entry :: LinkedTTLMap.rangeVisit f now rest
    else [n.entry]

/-- Go `LinkedTTLMap.Range`: destroyed check, then the read-only traversal;
the map state is returned unchanged. -/
def LinkedTTLMap.Range (m : LinkedTTLMap α) (f : String → α → Bool) (now : Int) : Except String (List (Entry α) × LinkedTTLMap α) :=
  match m.entryMap with
  | none => .error ErrMapDestroyed
  | some _ => .ok (LinkedTTLMap.rangeVisit f now m.chain, m)

/-- Go `LinkedTTLMap.Size`: `len(m.entryMap)`. -/
def LinkedTTLMap.Size (m : LinkedTTLMap α) : Except String Nat :=
  match m.entryMap with
  | none => .error ErrMapDestroyed
  | some em => .ok em.length

/-- The loop of Go `LinkedTTLMap.DeleteExpired` (linked_ttl_map.go:64-78):
iterate over (a snapshot of) the hash index; each expired node is removed from
both structures via `delete` and its entry reported. -/
def LinkedTTLMap.sweep (now : Int) : List (String × ttlEntry α) → List (String × ttlEntry α) → List (ttlEntry α) → List (String × ttlEntry α) × List (ttlEntry α) × List (Entry α)
  | [], em, chain => (em, chain, [])
  | p :: rest, em, chain =>
    if (p.2).expired now then
      let r := LinkedTTLMap.sweep now rest (removeKey em p.1) (chainRemove chain p.1)
      (r.1, r.2.1, (p.2).entry :: r.2.2)
    else
      LinkedTTLMap.sweep now rest em chain

/-- Go `LinkedTTLMap.DeleteExpired`: destroyed check, then the sweep.  (Go
iterates the hash map in unspecified order; the model iterates in index
order.) -/
def LinkedTTLMap.DeleteExpired (m : LinkedTTLMap α) (now : Int) : Except String (List (Entry α) × LinkedTTLMap α) :=
  match m.entryMap with
  | none => .error ErrMapDestroyed
  | some em =>
    let r := LinkedTTLMap.sweep now em em m.chain
    .ok (r.2.2, { m with entryMap := some r.1, chain := r.2.1 })

/-- Go `LinkedTTLMap.Destroy` (linked_ttl_map.go:275-284), sequential content:
destroyed check, `Clear()`, `m.entryMap = nil`, `close(m.exit)`.  The lock
trace of the same function is modelled separately below. -/
def LinkedTTLMap.Destroy (m : LinkedTTLMap α) : Except String (LinkedTTLMap α) :=
  match m.entryMap with
  | none => .error ErrMapDestroyed
  | some _ => .ok { m with entryMap := none, chain := [] }

/-! ## Lock model of `Destroy`

Go's `sync.RWMutex` is not reentrant: `Lock()` blocks until every reader has
released, including a read lock held by the calling goroutine itself, and
`RLock()` blocks while a writer holds the mutex.  We record the operations a
single goroutine performs on one mutex, in program order, and detect the point
where the goroutine would wait on a lock that only it can release. -/

/-- An operation on one `sync.RWMutex`. -/
inductive LockOp where
  | rlock
  | runlock
  | wlock
  | wunlock
deriving DecidableEq

/-- `selfBlocks ops r w = true` iff a goroutine running `ops` alone — with `r`
read holds and (`w`) a write hold of its own already outstanding — reaches an
acquisition that can never be granted: taking the write lock while at least one
of its own read (or write) holds is outstanding, or taking a read lock while
its own write hold is outstanding.  No other goroutine exists to release them,
so such an acquisition blocks forever. -/
def selfBlocks : List LockOp → Nat → Bool → Bool
  | [], _, _ => false
  | .rlock :: rest, r, w => if w then true else selfBlocks rest (r + 1) w
  | .runlock :: rest, r, w => selfBlocks rest (r - 1) w
  | .wlock :: rest, r, w => if 0 < r || w then true else selfBlocks rest r true
  | .wunlock :: rest, r, w => selfBlocks rest r false

/-- The mutex operations `LinkedTTLMap.Destroy` performs on `m.mu`, in program
order (linked_ttl_map.go:275-284): `mu.RLock()`; then inside `m.Clear()`
`mu.Lock()` (line 234) and `mu.Unlock()` (line 243); the deferred
`mu.RUnlock()` of `Destroy` runs only after `Clear` returns. -/
def destroyLockOps : List LockOp := [.rlock, .wlock, .wunlock, .runlock]

/-! ## Helper lemmas about the index and chain primitives -/

@[simp] theorem renew_Key (e : ttlEntry α) (ttl now : Int) : (e.renew ttl now).Key = e.Key := by
  unfold ttlEntry.renew
  split <;> rfl

@[simp] theorem renew_Value (e : ttlEntry α) (ttl now : Int) : (e.renew ttl now).Value = e.Value := by
  unfold ttlEntry.renew
  split <;> rfl

theorem lookupKey_eq_none (em : List (String × ttlEntry α)) (k : String) :
    lookupKey em k = none ↔ k ∉ em.map Prod.fst := by
  induction em with
  | nil => simp [lookupKey]
  | cons p rest ih =>
    by_cases h : p.1 = k
    · simp [lookupKey, h]
    · simp only [lookupKey, if_neg h, List.map_cons, List.mem_cons, ih]
      constructor
      · intro hn hor
        cases hor with
        | inl h1 => exact h h1.symm
        | inr h2 => exact hn h2
      · intro hn h2
        exact hn (Or.inr h2)

theorem lookupKey_append_none (em : List (String × ttlEntry α)) (k q : String) (e : ttlEntry α)
    (h : lookupKey em q = none) (hq : q ≠ k) :
    lookupKey (em ++ [(k, e)]) q = none := by
  induction em with
  | nil =>
    show lookupKey [(k, e)] q = none
    simp only [lookupKey, if_neg (fun hk : k = q => hq hk.symm)]
  | cons p rest ih =>
    by_cases hp : p.1 = q
    · simp only [lookupKey, if_pos hp] at h
      cases h
    · simp only [lookupKey, if_neg hp] at h
      simp only [List.cons_append, lookupKey, if_neg hp]
      exact ih h

/-! ## Operation sequences -/

/-- One public mutating-capable operation together with the clock reading at
which it runs (`Range` and `Size` never change the state and are omitted; the
claimed invariant quantifies over the operations listed here). -/
inductive MapOp (α : Type) where
  | store (key : String) (value : α) (now : Int)
  | load (key : String) (now : Int)
  | loadOrStore (key : String) (value : α) (now : Int)
  | storeOrCompare (key : String) (value : α) (compare : Option (α → α → α)) (now : Int)
  | delete (key : String)
  | clear (now : Int)
  | deleteExpired (now : Int)

/-- Run one operation, keeping the resulting state (on the destroyed-map error
the state is unchanged). -/
def applyOp (m : LinkedTTLMap α) : MapOp α → LinkedTTLMap α
  | .store k v now =>
    match m.Store k v now with
    | .ok m' => m'
    | .error _ => m
  | .load k now =>
    match m.Load k now with
    | .ok r => r.2
    | .error _ => m
  | .loadOrStore k v now =>
    match m.LoadOrStore k v now with
    | .ok r => r.2
    | .error _ => m
  | .storeOrCompare k v c now =>
    match m.StoreOrCompare k v c now with
    | .ok m' => m'
    | .error _ => m
  | .delete k =>
    match m.Delete k with
    | .ok r => r.2
    | .error _ => m
  | .clear now =>
    match m.Clear now with
    | .ok r => r.2
    | .error _ => m
  | .deleteExpired now =>
    match m.DeleteExpired now with
    | .ok r => r.2
    | .error _ => m

/-- Run a sequence of operations left to right. -/
def runOps (m : LinkedTTLMap α) (ops : List (MapOp α)) : LinkedTTLMap α :=
  ops.foldl applyOp m

/-- Characterisation of the `Range` traversal: among the non-expired nodes, in
chain order, the visitor sees the longest prefix on which it keeps returning
`true`, plus the single node (if any) on which it returns `false`. -/
theorem rangeVisit_eq (f : String → α → Bool) (now : Int) (chain : List (ttlEntry α)) :
    LinkedTTLMap.rangeVisit f now chain =
      ((((chain.filter fun n => !n.expired now).takeWhile fun n => f n.Key n.Value)
        ++ (((chain.filter fun n => !n.expired now).dropWhile fun n => f n.Key n.Value).take 1))).map
        (fun n => n.entry) := by
  induction chain with
  | nil => rfl
  | cons n rest ih =>
    by_cases hex : n.expired now = true
    · simp only [LinkedTTLMap.rangeVisit, hex, if_pos, List.filter_cons, Bool.not_true]
      simpa using ih
    · by_cases hf : f n.Key n.Value = true
      · simp only [LinkedTTLMap.rangeVisit, hex, Bool.false_eq_true, if_neg, ite_false, hf,
          if_pos, List.filter_cons]
        simp only [Bool.not_eq_true] at hex
        simp [hex, hf, List.takeWhile_cons, List.dropWhile_cons, ih]
      · simp only [LinkedTTLMap.rangeVisit, hex, Bool.false_eq_true, if_neg, ite_false, hf,
          List.filter_cons]
        simp only [Bool.not_eq_true] at hex
        simp [hex, hf, List.takeWhile_cons, List.dropWhile_cons]

/-- Storing a batch of fresh keys (all absent, pairwise distinct) appends the
corresponding nodes to the chain in batch order and to the index alike. -/
theorem runOps_storeAll (t0 : Int) (kvs : List (String × α)) :
    ∀ (m : LinkedTTLMap α) (em : List (String × ttlEntry α)), m.entryMap = some em →
      (∀ p ∈ kvs, lookupKey em p.1 = none) →
      (kvs.map Prod.fst).Nodup →
      runOps m (kvs.map fun p => MapOp.store p.1 p.2 t0)
        = { m with
            entryMap := some (em ++ kvs.map fun p => (p.1, ⟨⟨p.1, p.2⟩, deadlineOf m.expiration t0⟩)),
            chain := m.chain ++ kvs.map fun p => ⟨⟨p.1, p.2⟩, deadlineOf m.expiration t0⟩ } := by
  induction kvs with
  | nil =>
    intro m em hm _ _
    cases m
    simp only at hm
    simp [runOps, hm]
  | cons q rest ih =>
    intro m em hm habs hnod
    have hq : lookupKey em q.1 = none := habs q (List.mem_cons_self q rest)
    have happ : applyOp m (.store q.1 q.2 t0)
        = { m with
            entryMap := some (em ++ [(q.1, ⟨⟨q.1, q.2⟩, deadlineOf m.expiration t0⟩)]),
            chain := m.chain ++ [⟨⟨q.1, q.2⟩, deadlineOf m.expiration t0⟩] } := by
      simp [applyOp, LinkedTTLMap.Store, hm, LinkedTTLMap.store, hq]
    have hq_not : q.1 ∉ rest.map Prod.fst := by
      simp only [List.map_cons, List.nodup_cons] at hnod
      exact hnod.1
    have habs' : ∀ p ∈ rest,
        lookupKey (em ++ [(q.1, ⟨⟨q.1, q.2⟩, deadlineOf m.expiration t0⟩)]) p.1 = none := by
      intro p hp
      refine lookupKey_append_none _ _ _ _ (habs p (List.mem_cons_of_mem q hp)) ?_
      intro hpq
      exact hq_not (hpq ▸ List.mem_map_of_mem Prod.fst hp)
    have hnod' : (rest.map Prod.fst).Nodup := by
      simp only [List.map_cons, List.nodup_cons] at hnod
      exact hnod.2
    have hrun : runOps m ((q :: rest).map fun p => MapOp.store p.1 p.2 t0)
        = runOps (applyOp m (.store q.1 q.2 t0)) (rest.map fun p => MapOp.store p.1 p.2 t0) := rfl
    rw [hrun, happ]
    rw [ih _ _ rfl habs' hnod']
    simp [List.append_assoc]

/-! ## Concrete sample states used by witnesses and counterexamples -/

def keyA : String := "a"

/-- A live sample map: `NewLinkedTTLMap(100, 10, false)`. -/
def sampleNew : LinkedTTLMap Nat := NewLinkedTTLMap Nat 100 10 false

/-- `sampleNew` after `Store("a", 7)` executed at time 1000 (deadline 1100). -/
def sampleStored : LinkedTTLMap Nat :=
  { entryMap := some [(keyA, ⟨⟨keyA, 7⟩, 1100⟩)]
    expiration := 100
    renewOnLoad := false
    chain := [⟨⟨keyA, 7⟩, 1100⟩] }

/-- A map built with `renewOnLoad = true` holding one entry with deadline
1100 (as produced by `NewLinkedTTLMap(100, 10, true)` then `Store` at
time 1000). -/
def sampleRenewing : LinkedTTLMap Nat :=
  { entryMap := some [(keyA, ⟨⟨keyA, 7⟩, 1100⟩)]
    expiration := 100
    renewOnLoad := true
    chain := [⟨⟨keyA, 7⟩, 1100⟩] }

/-- `sampleNew` after `Destroy()`. -/
def sampleDead : LinkedTTLMap Nat :=
  { entryMap := none
    expiration := 100
    renewOnLoad := false
    chain := [] }

/-! ## The claims -/

/-- C4 counterexample: on a map built with `renewOnLoad = true`, `Range`
visits the fresh entry but does not renew it: the state (and the entry's
deadline 1100) is unchanged, whereas a renewal at time 1050 with TTL 100 would
have set the deadline to 1150. -/
theorem c4_counterexample :
    sampleRenewing.renewOnLoad = true ∧
    sampleRenewing.Range (fun _ _ => true) 1050 = .ok ([⟨keyA, 7⟩], sampleRenewing) ∧
    sampleRenewing.chain.map ttlEntry.expiration = [1100] ∧
    1050 + sampleRenewing.expiration ≠ (1100 : Int) :=
  ⟨rfl, rfl, rfl, by decide⟩

/-- C4 amended: `Range(visitor)` traverses in order from oldest (head) to
newest (tail), skipping (without evicting) every entry stale at visit time,
stops after the first entry on which the visitor returns `false` — and never
renews: the map state comes back unchanged even when `renewOnLoad` is set. -/
theorem c4_range_no_renew (m : LinkedTTLMap α) (em : List (String × ttlEntry α))
    (hm : m.entryMap = some em) (f : String → α → Bool) (now : Int) :
    m.Range f now
      = .ok (((((m.chain.filter fun n => !n.expired now).takeWhile fun n => f n.Key n.Value)
          ++ (((m.chain.filter fun n => !n.expired now).dropWhile fun n => f n.Key n.Value).take 1))).map
          (fun n => n.entry), m) := by
  unfold LinkedTTLMap.Range
  rw [hm]
  simp only
  rw [rangeVisit_eq]

theorem c4_witness :
    sampleRenewing.Range (fun _ _ => false) 1050
      = .ok (((((sampleRenewing.chain.filter fun n => !n.expired 1050).takeWhile
            fun n => (fun _ _ => false) n.Key n.Value)
          ++ (((sampleRenewing.chain.filter fun n => !n.expired 1050).dropWhile
            fun n => (fun _ _ => false) n.Key n.Value).take 1))).map
          (fun n => n.entry), sampleRenewing) :=
  c4_range_no_renew sampleRenewing [(keyA, ⟨⟨keyA, 7⟩, 1100⟩)] rfl (fun _ _ => false) 1050

/-- C5: once `Destroy()` has succeeded, the map reads as destroyed and every
subsequent operation — `Store`, `Load`, `LoadOrStore`, `StoreOrCompare`,
`Delete`, `Clear`, `Range`, `Size`, `DeleteExpired` and a second `Destroy` —
fails with the `ErrMapDestroyed` error and performs no other work; no
operation ever leaves the destroyed state, so the transition is one-way. -/
theorem c5_destroyed_rejects (m m' : LinkedTTLMap α) (h : m.Destroy = .ok m')
    (k : String) (v : α) (c : Option (α → α → α)) (f : String → α → Bool) (now : Int) :
    m'.entryMap = none ∧
    m'.Store k v now = .error ErrMapDestroyed ∧
    m'.Load k now = .error ErrMapDestroyed ∧
    m'.LoadOrStore k v now = .error ErrMapDestroyed ∧
    m'.StoreOrCompare k v c now = .error ErrMapDestroyed ∧
    m'.Delete k = .error ErrMapDestroyed ∧
    m'.Clear now = .error ErrMapDestroyed ∧
    m'.Range f now = .error ErrMapDestroyed ∧
    m'.Size = .error ErrMapDestroyed ∧
    m'.DeleteExpired now = .error ErrMapDestroyed ∧
    m'.Destroy = .error ErrMapDestroyed := by
  have hnone : m'.entryMap = none := by
    unfold LinkedTTLMap.Destroy at h
    cases hm : m.entryMap with
    | none =>
      rw [hm] at h
      cases h
    | some em =>
      rw [hm] at h
      simp only at h
      cases h
      rfl
  refine ⟨hnone, ?_, ?_, ?_, ?_, ?_, ?_, ?_, ?_, ?_, ?_⟩ <;>
    simp [LinkedTTLMap.Store, LinkedTTLMap.Load, LinkedTTLMap.LoadOrStore,
      LinkedTTLMap.StoreOrCompare, LinkedTTLMap.Delete, LinkedTTLMap.Clear,
      LinkedTTLMap.Range, LinkedTTLMap.Size, LinkedTTLMap.DeleteExpired,
      LinkedTTLMap.Destroy, hnone]

theorem c5_witness :
    sampleDead.entryMap = none ∧
    sampleDead.Store keyA 1 0 = .error ErrMapDestroyed ∧
    sampleDead.Load keyA 0 = .error ErrMapDestroyed ∧
    sampleDead.LoadOrStore keyA 1 0 = .error ErrMapDestroyed ∧
    sampleDead.StoreOrCompare keyA 1 none 0 = .error ErrMapDestroyed ∧
    sampleDead.Delete keyA = .error ErrMapDestroyed ∧
    sampleDead.Clear 0 = .error ErrMapDestroyed ∧
    sampleDead.Range (fun _ _ => true) 0 = .error ErrMapDestroyed ∧
    sampleDead.Size = .error ErrMapDestroyed ∧
    sampleDead.DeleteExpired 0 = .error ErrMapDestroyed ∧
    sampleDead.Destroy = .error ErrMapDestroyed :=
  c5_destroyed_rejects sampleNew sampleDead rfl keyA 1 none (fun _ _ => true) 0

/-- C9 is violated by the code: `LinkedTTLMap.Destroy` acquires the read lock
and then, through its call to `Clear`, tries to acquire the write lock of the
same non-reentrant `sync.RWMutex` before the read lock is released; even with
no other goroutine running, this acquisition can never be granted, so
`Destroy` blocks forever. -/
theorem c9_destroy_self_deadlock : selfBlocks destroyLockOps 0 false = true := rfl

/-- C6: `Clear()` empties both structures (every subsequent `Load` misses) and
returns exactly the entries that were fresh at classification time, in their
former order; it returns the empty sequence on an empty map; and after
storing any batch of distinct fresh keys into a new map, `Clear()` returns
all of them, in insertion order. -/
theorem c6_clear (m : LinkedTTLMap α) (em : List (String × ttlEntry α))
    (hm : m.entryMap = some em) (now : Int) :
    (∃ m', m.Clear now
        = .ok ((m.chain.filter fun n => !n.expired now).map fun n => n.entry, m') ∧
      m'.entryMap = some [] ∧ m'.chain = [] ∧
      ∀ (k : String) (now2 : Int), m'.Load k now2 = .ok ((none, false), m')) ∧
    (m.chain = [] → m.Clear now = .ok ([], { m with entryMap := some [], chain := [] })) ∧
    (∀ (ttl gci t0 : Int) (rol : Bool) (kvs : List (String × α)),
      (kvs.map Prod.fst).Nodup →
      (∀ p ∈ kvs, ttlEntry.expired ⟨⟨p.1, p.2⟩, deadlineOf ttl t0⟩ now = false) →
      (runOps (NewLinkedTTLMap α ttl gci rol) (kvs.map fun p => MapOp.store p.1 p.2 t0)).Clear now
        = .ok (kvs.map fun p => ⟨p.1, p.2⟩,
            { entryMap := some [], expiration := ttl, renewOnLoad := rol, chain := [] })) := by
  refine ⟨?_, ?_, ?_⟩
  · refine ⟨{ m with entryMap := some [], chain := [] }, ?_, rfl, rfl, ?_⟩
    · unfold LinkedTTLMap.Clear
      rw [hm]
    · intro k now2
      unfold LinkedTTLMap.Load
      simp [lookupKey]
  · intro hchain
    unfold LinkedTTLMap.Clear
    rw [hm, hchain]
    rfl
  · intro ttl gci t0 rol kvs hnod hfresh
    rw [runOps_storeAll t0 kvs (NewLinkedTTLMap α ttl gci rol) [] rfl
      (fun p hp => rfl) hnod]
    unfold LinkedTTLMap.Clear
    simp only [NewLinkedTTLMap, List.nil_append]
    have hall : ((kvs.map fun p => (⟨⟨p.1, p.2⟩, deadlineOf ttl t0⟩ : ttlEntry α)).filter
        fun n => !n.expired now) = kvs.map fun p => ⟨⟨p.1, p.2⟩, deadlineOf ttl t0⟩ := by
      refine List.filter_eq_self.mpr ?_
      intro n hn
      rcases List.mem_map.mp hn with ⟨p, hp, hpn⟩
      rw [← hpn]
      simp [hfresh p hp]
    rw [hall, List.map_map]
    rfl

theorem c6_witness :
    ∃ m', sampleStored.Clear 1050
        = .ok ((sampleStored.chain.filter fun n => !n.expired 1050).map fun n => n.entry, m') ∧
      m'.entryMap = some [] ∧ m'.chain = [] ∧
      ∀ (k : String) (now2 : Int), m'.Load k now2 = .ok ((none, false), m') :=
  (c6_clear sampleStored [(keyA, ⟨⟨keyA, 7⟩, 1100⟩)] rfl 1050).1

/-- C7: with `defaultTTL = ttl > 0`, `renewOnAccess` off, and an entry stored
at (wall-clock) time `t0 > 0`, `Load` at any time before `t0 + ttl` returns
the entry, and `Load` at any time strictly after `t0 + ttl` returns not-found
and lazily evicts the stale entry; moreover an entry with non-positive
deadline is never stale, and staleness holds exactly when the deadline is
positive and `now` is strictly past it. -/
theorem c7_expiration_correctness (α : Type) (v : α) (k : String) (ttl gci t0 : Int)
    (h1 : 0 < ttl) (h2 : 0 < t0) (m1 : LinkedTTLMap α)
    (hstore : (NewLinkedTTLMap α ttl gci false).Store k v t0 = .ok m1) :
    (∀ t, t < t0 + ttl → m1.Load k t = .ok ((some v, true), m1)) ∧
    (∀ t, t0 + ttl < t →
      m1.Load k t = .ok ((none, false), { m1 with entryMap := some [], chain := [] })) ∧
    (∀ (e : ttlEntry α) (now : Int), e.expiration ≤ 0 → e.expired now = false) ∧
    (∀ (e : ttlEntry α) (now : Int), e.expired now = true ↔ 0 < e.expiration ∧ e.expiration < now) := by
  have hm1 : m1
      = { entryMap := some [(k, ⟨⟨k, v⟩, deadlineOf ttl t0⟩)]
          expiration := ttl
          renewOnLoad := false
          chain := [⟨⟨k, v⟩, deadlineOf ttl t0⟩] } := by
    unfold LinkedTTLMap.Store NewLinkedTTLMap LinkedTTLMap.store at hstore
    simp only [lookupKey] at hstore
    cases hstore
    rfl
  have hdl : deadlineOf ttl t0 = t0 + ttl := by
    unfold deadlineOf
    simp [h1]
  have hpos : 0 < t0 + ttl := by omega
  refine ⟨?_, ?_, ?_, ?_⟩
  · intro t ht
    rw [hm1]
    unfold LinkedTTLMap.Load
    simp only [lookupKey, if_pos rfl]
    have hex : ttlEntry.expired (⟨⟨k, v⟩, deadlineOf ttl t0⟩ : ttlEntry α) t = false := by
      unfold ttlEntry.expired
      rw [hdl]
      simp only
      rw [if_neg (by omega)]
      simp
      omega
    simp [hex, ttlEntry.Value]
  · intro t ht
    rw [hm1]
    unfold LinkedTTLMap.Load
    simp only [lookupKey, if_pos rfl]
    have hex : ttlEntry.expired (⟨⟨k, v⟩, deadlineOf ttl t0⟩ : ttlEntry α) t = true := by
      unfold ttlEntry.expired
      rw [hdl]
      simp only
      rw [if_neg (by omega)]
      simp
      omega
    simp only [hex, if_pos, LinkedTTLMap.deleteNode]
    have hrk : removeKey [(k, (⟨⟨k, v⟩, deadlineOf ttl t0⟩ : ttlEntry α))] k = [] := by
      simp [removeKey]
    have hck : chainRemove [(⟨⟨k, v⟩, deadlineOf ttl t0⟩ : ttlEntry α)] k = [] := by
      simp [chainRemove, ttlEntry.Key]
    rw [hrk, hck]
  · intro e now he
    unfold ttlEntry.expired
    simp [he]
  · intro e now
    unfold ttlEntry.expired
    by_cases he : e.expiration ≤ 0
    · simp only [he, if_pos]
      constructor
      · intro hf
        cases hf
      · intro ⟨ha, _⟩
        omega
    · simp only [he, if_neg]
      constructor
      · intro hd
        refine ⟨by omega, by simpa using hd⟩
      · intro ⟨_, hb⟩
        simpa using hb

theorem c7_witness :
    sampleStored.Load keyA 1050 = .ok ((some 7, true), sampleStored) ∧
    sampleStored.Load keyA 1200
      = .ok ((none, false), { sampleStored with entryMap := some [], chain := [] }) :=
  ⟨(c7_expiration_correctness Nat 7 keyA 100 10 1000 (by decide) (by decide)
      sampleStored rfl).1 1050 (by decide),
   (c7_expiration_correctness Nat 7 keyA 100 10 1000 (by decide) (by decide)
      sampleStored rfl).2.1 1200 (by decide)⟩

/-! ## Pointer-accurate model

Nodes live in an allocation arena (`heap`) addressed by `Nat`; a pointer is an
address, `none` being `nil`.  Each Go statement of `store` and `delete` is
replayed one by one, so the two pointer-level bugs of the source are
reproduced exactly. -/

/-- Go `linkedTTLEntry`: the embedded `ttlEntry` (each node owns its own
`ttlEntry`, so its fields are flattened in) plus the `before`/`after`
pointers. -/
structure linkedTTLEntry (α : Type) where
  entry : Entry α
  expiration : Int
  before : Option Nat
  after : Option Nat
deriving DecidableEq

/-- Go `ttlEntry.expired` (ttl_map.go), on a linked node. -/
def linkedTTLEntry.expired (e : linkedTTLEntry α) (now : Int) : Bool :=
  if e.expiration ≤ 0 then false else decide (e.expiration < now)

/-- Go `ttlEntry.renew` (ttl_map.go), on a linked node. -/
def linkedTTLEntry.renew (e : linkedTTLEntry α) (expiration now : Int) : linkedTTLEntry α :=
  if e.expired now then e else { e with expiration := now + expiration }

/-- Pointer-accurate Go `LinkedTTLMap`: the hash index maps keys to heap
addresses; `heap[i]?` is node `i` (nodes are never deallocated, unreferenced
ones are simply garbage); `head`/`tail` are the endpoints of the order. -/
structure PtrLinkedTTLMap (α : Type) where
  entryMap : Option (List (String × Nat))
  expiration : Int
  renewOnLoad : Bool
  heap : List (linkedTTLEntry α)
  head : Option Nat
  tail : Option Nat
deriving DecidableEq

/-- Go `NewLinkedTTLMap`, pointer-accurate. -/
def PtrNewLinkedTTLMap (α : Type) (expiration gcInterval : Int) (renewOnLoad : Bool) : PtrLinkedTTLMap α :=
  { entryMap := some []
    expiration := expiration
    renewOnLoad := renewOnLoad
    heap := []
    head := none
    tail := none }

/-- Go map read `m.entryMap[key]` (key to node address). -/
def lookupId : List (String × Nat) → String → Option Nat
  | [], _ => none
  | p :: rest, key => if p.1 = key then some p.2 else lookupId rest key

/-- Go `delete(m.entryMap, key)` on the address index. -/
def removeId (em : List (String × Nat)) (key : String) : List (String × Nat) :=
  em.filter fun p => p.1 ≠ key

/-- Go `LinkedTTLMap.store` (linked_ttl_map.go:80-130), pointer-accurate.
Key-present branch: a replacement node (fresh deadline, the old node's
`before`/`after` links) is allocated and the neighbours — or `head`/`tail` at
an endpoint — are rewired to it; but the inner `entry :=` (line 89) shadows
the `entry` read from the index on line 87, so `m.entryMap[key] = entry`
(line 129) re-inserts the OLD node and the index is left unchanged.
Key-absent branch: append at the tail and index the new node. -/
def PtrLinkedTTLMap.store (m : PtrLinkedTTLMap α) (em : List (String × Nat)) (key : String) (value : α) (now : Int) : PtrLinkedTTLMap α :=
  match lookupId em key with
  | some i =>
    match m.heap[i]? with
    | some oldN =>
      let newN : linkedTTLEntry α := ⟨⟨key, value⟩, deadlineOf m.expiration now, oldN.before, oldN.after⟩
      let j := m.heap.length
      let h1 := m.heap ++ [newN]
      let s2 : List (linkedTTLEntry α) × Option Nat :=
        match newN.before with
        | some b =>
          match h1[b]? with
          | some bn => (h1.set b { bn with after := some j }, m.head)
          | none => (h1, m.head)
        | none => (h1, some j)
      let s3 : List (linkedTTLEntry α) × Option Nat :=
        match newN.after with
        | some a =>
          match s2.1[a]? with
          | some an => (s2.1.set a { an with before := some j }, m.tail)
          | none => (s2.1, m.tail)
        | none => (s2.1, some j)
      { m with entryMap := some em, heap := s3.1, head := s2.2, tail := s3.2 }
    | none => m
  | none =>
    let newN : linkedTTLEntry α := ⟨⟨key, value⟩, deadlineOf m.expiration now, m.tail, none⟩
    let j := m.heap.length
    let h1 := m.heap ++ [newN]
    match m.tail with
    | none =>
      { m with entryMap := some (em ++ [(key, j)]), heap := h1, head := some j, tail := some j }
    | some t =>
      let h2 := match h1[t]? with
        | some tn => h1.set t { tn with after := some j }
        | none => h1
      { m with entryMap := some (em ++ [(key, j)]), heap := h2, tail := some j }

/-- The pointer surgery of Go `LinkedTTLMap.delete` (linked_ttl_map.go:166-177)
statement by statement.  Line 168 nils `item.after` BEFORE the second branch
reads it through the same object (lines 173/176), so when the node has a
successor the predecessor's `after` — or `head` — becomes `nil` and the suffix
of the chain is orphaned.  Returns the new heap, head and tail. -/
def unlink (h : List (linkedTTLEntry α)) (head tail : Option Nat) (i : Nat) (item : linkedTTLEntry α) : List (linkedTTLEntry α) × Option Nat × Option Nat :=
  let s1 : List (linkedTTLEntry α) × Option Nat :=
    match item.after with
    | some a =>
      let ha := match h[a]? with
        | some an => h.set a { an with before := item.before }
        | none => h
      (ha.set i { item with after := none }, tail)
    | none => (h, item.before)
  let item1 : linkedTTLEntry α :=
    match s1.1[i]? with
    | some it => it
    | none => item
  match item1.before with
  | some b =>
    let hb := match s1.1[b]? with
      | some bn => s1.1.set b { bn with after := item1.after }
      | none => s1.1
    (hb.set i { item1 with before := none }, head, s1.2)
  | none => (s1.1, item1.after, s1.2)

/-- Go `LinkedTTLMap.delete`, pointer-accurate: the node's key leaves the hash
index, the pointer surgery runs, and `item.Value` is returned unconditionally
(no staleness check). -/
def PtrLinkedTTLMap.deleteNode (m : PtrLinkedTTLMap α) (em : List (String × Nat)) (i : Nat) : Option α × PtrLinkedTTLMap α :=
  match m.heap[i]? with
  | none => (none, m)
  | some item =>
    let r := unlink m.heap m.head m.tail i item
    (some item.entry.Value,
      { m with entryMap := some (removeId em item.entry.Key), heap := r.1, head := r.2.1, tail := r.2.2 })

/-- Go `LinkedTTLMap.Store`, pointer-accurate. -/
def PtrLinkedTTLMap.Store (m : PtrLinkedTTLMap α) (key : String) (value : α) (now : Int) : Except String (PtrLinkedTTLMap α) :=
  match m.entryMap with
  | none => .error ErrMapDestroyed
  | some em => .ok (m.store em key value now)

/-- Go `LinkedTTLMap.Load`, pointer-accurate: a present expired node is lazily
deleted; a fresh node is renewed in place when `renewOnLoad`. -/
def PtrLinkedTTLMap.Load (m : PtrLinkedTTLMap α) (key : String) (now : Int) : Except String ((Option α × Bool) × PtrLinkedTTLMap α) :=
  match m.entryMap with
  | none => .error ErrMapDestroyed
  | some em =>
    match lookupId em key with
    | some i =>
      match m.heap[i]? with
      | some item =>
        if item.expired now then
          let r := m.deleteNode em i
          .ok ((none, false), r.2)
        else if m.renewOnLoad then
          .ok ((some item.entry.Value, true), { m with heap := m.heap.set i (item.renew m.expiration now) })
        else
          .ok ((some item.entry.Value, true), m)
      | none => .ok ((none, false), m)
    | none => .ok ((none, false), m)

/-- Go `LinkedTTLMap.LoadOrStore`, pointer-accurate. -/
def PtrLinkedTTLMap.LoadOrStore (m : PtrLinkedTTLMap α) (key : String) (value : α) (now : Int) : Except String ((α × Bool) × PtrLinkedTTLMap α) :=
  match m.entryMap with
  | none => .error ErrMapDestroyed
  | some em =>
    match lookupId em key with
    | some i =>
      match m.heap[i]? with
      | some item =>
        if item.expired now then
          .ok ((value, false), m.store em key value now)
        else if m.renewOnLoad then
          .ok ((item.entry.Value, true), { m with heap := m.heap.set i (item.renew m.expiration now) })
        else
          .ok ((item.entry.Value, true), m)
      | none => .ok ((value, false), m.store em key value now)
    | none => .ok ((value, false), m.store em key value now)

/-- Go `LinkedTTLMap.StoreOrCompare`, pointer-accurate: the fresh branch
renews and combines in place on the indexed node (`m.entryMap[key] = item`
re-inserts the same pointer, so the index is unchanged). -/
def PtrLinkedTTLMap.StoreOrCompare (m : PtrLinkedTTLMap α) (key : String) (value : α) (compare : Option (α → α → α)) (now : Int) : Except String (PtrLinkedTTLMap α) :=
  match m.entryMap with
  | none => .error ErrMapDestroyed
  | some em =>
    match lookupId em key with
    | some i =>
      match m.heap[i]? with
      | some item =>
        if item.expired now then
          .ok (m.store em key value now)
        else
          let item1 := item.renew m.expiration now
          let item2 := match compare with
            | some f => { item1 with entry := { item1.entry with Value := f item1.entry.Value value } }
            | none => item1
          .ok { m with heap := m.heap.set i item2 }
      | none => .ok (m.store em key value now)
    | none => .ok (m.store em key value now)

/-- Go `LinkedTTLMap.Delete`, pointer-accurate. -/
def PtrLinkedTTLMap.Delete (m : PtrLinkedTTLMap α) (key : String) : Except String (Option α × PtrLinkedTTLMap α) :=
  match m.entryMap with
  | none => .error ErrMapDestroyed
  | some em =>
    match lookupId em key with
    | some i => .ok (m.deleteNode em i)
    | none => .ok (none, m)

/-- Go `LinkedTTLMap.Size`, pointer-accurate: `len(m.entryMap)`. -/
def PtrLinkedTTLMap.Size (m : PtrLinkedTTLMap α) : Except String Nat :=
  match m.entryMap with
  | none => .error ErrMapDestroyed
  | some em => .ok em.length

/-- The nodes reached from an address by following `after` pointers — the walk
`Range` and `Clear` perform.  The fuel argument keeps the recursion
structural; `heap.length` steps suffice whenever the `after` pointers are
acyclic, which holds in every state the operations produce. -/
def chainFrom (h : List (linkedTTLEntry α)) : Option Nat → Nat → List (linkedTTLEntry α)
  | _, 0 => []
  | none, _ => []
  | some i, fuel + 1 =>
    match h[i]? with
    | none => []
    | some n => n :: chainFrom h n.after fuel

/-- The nodes reachable from `head` — what an observer of the iteration order
(`Range`, `Clear`) sees. -/
def PtrLinkedTTLMap.reachChain (m : PtrLinkedTTLMap α) : List (linkedTTLEntry α) :=
  chainFrom m.heap m.head m.heap.length

theorem lookupId_removeId (em : List (String × Nat)) (k : String) :
    lookupId (removeId em k) k = none := by
  induction em with
  | nil => rfl
  | cons p rest ih =>
    by_cases h : p.1 = k
    · simpa [removeId, List.filter_cons, h] using ih
    · simpa [removeId, List.filter_cons, h, lookupId] using ih

/-! ## Pointer-accurate sample states -/

def keyB : String := "b"

def keyC : String := "c"

/-- A live pointer-accurate map: `NewLinkedTTLMap(-1, -1, false)` (expiration
disabled, entries never stale). -/
def pNew : PtrLinkedTTLMap Nat := PtrNewLinkedTTLMap Nat (-1) (-1) false

/-- `NewLinkedTTLMap(100, 10, false)` after `Store("a", 7)` at time 1000
(deadline 1100). -/
def pStored : PtrLinkedTTLMap Nat :=
  { entryMap := some [(keyA, 0)]
    expiration := 100
    renewOnLoad := false
    heap := [⟨⟨keyA, 7⟩, 1100, none, none⟩]
    head := some 0
    tail := some 0 }

/-- A `renewOnLoad` map holding `a`, `b`, `c` in order, where at time 1140 the
middle entry `b` (deadline 1101) is stale while `a` (renewed to deadline 1150)
and `c` (renewed to 1160) are fresh. -/
def pThree : PtrLinkedTTLMap Nat :=
  { entryMap := some [(keyA, 0), (keyB, 1), (keyC, 2)]
    expiration := 100
    renewOnLoad := true
    heap := [⟨⟨keyA, 1⟩, 1150, none, some 1⟩, ⟨⟨keyB, 2⟩, 1101, some 0, some 2⟩,
      ⟨⟨keyC, 3⟩, 1160, some 1, none⟩]
    head := some 0
    tail := some 2 }

/-! ## The claims settled on the pointer-accurate model -/

/-- C1 is violated by the code in the key-present case: the inner `entry :=`
(linked_ttl_map.go:89) shadows the `entry` read from the index, so line 129
re-inserts the OLD node into the hash index.  After `Store("a", 1);
Store("a", 2)` the chain holds the new value 2, but `Load("a")` — which reads
the index — returns `(1, true)`, not the claimed `(2, true)`. -/
theorem c1_code_bug :
    ∃ s1 s2, pNew.Store keyA 1 1000 = .ok s1 ∧ s1.Store keyA 2 1100 = .ok s2 ∧
      (∃ r, s2.Load keyA 1200 = .ok ((some 1, true), r)) ∧
      s2.reachChain.map (fun n => n.entry.Value) = [2] ∧
      ((some 1, true) : Option Nat × Bool) ≠ (some 2, true) := by
  refine ⟨_, _, rfl, rfl, ⟨_, rfl⟩, rfl, by decide⟩

/-- C2 is violated by the code: `delete` nils `item.after` (line 168) before
lines 173/176 read it, so deleting the middle one of `a`, `b`, `c` nils the
predecessor's `after`: `Size()` still reports 2 indexed keys (`a` and `c`) but
only `a` is reachable from `head`. -/
theorem c2_code_bug :
    ∃ s1 s2 s3 s4, pNew.Store keyA 1 1000 = .ok s1 ∧ s1.Store keyB 2 1001 = .ok s2 ∧
      s2.Store keyC 3 1002 = .ok s3 ∧ s3.Delete keyB = .ok (some 2, s4) ∧
      s4.Size = .ok 2 ∧
      s4.reachChain.map (fun n => n.entry.Key) = [keyA] ∧
      (∃ em, s4.entryMap = some em ∧ lookupId em keyC = some 2) ∧
      (2 : Nat) ≠ 1 := by
  refine ⟨_, _, _, _, rfl, rfl, rfl, rfl, rfl, rfl, ⟨_, rfl, rfl⟩, by decide⟩

/-- C3 counterexample: the single entry of `pStored` (deadline 1100) is stale
at time 2000, yet `Delete("a")` returns its value `7` rather than "absent" —
`LinkedTTLMap.delete` returns `item.Value` with no staleness check. -/
theorem c3_counterexample :
    linkedTTLEntry.expired (⟨⟨keyA, 7⟩, 1100, none, none⟩ : linkedTTLEntry Nat) 2000 = true ∧
    (∃ s, pStored.Delete keyA = .ok (some 7, s)) ∧
    some (7 : Nat) ≠ none := by
  exact ⟨by decide, ⟨_, rfl⟩, by decide⟩

/-- C8 is violated by the code in the stale-entry case: `LoadOrStore` falls
through to `store`, whose key-present branch leaves the OLD stale node in the
index (the line-89 shadowing), so the immediately following `Load` finds the
stale node, lazily evicts it, and returns `(nil, false)` instead of the
claimed `(v, true)`.  (The fresh-entry and key-absent cases do behave as
claimed.) -/
theorem c8_code_bug :
    linkedTTLEntry.expired (⟨⟨keyA, 7⟩, 1100, none, none⟩ : linkedTTLEntry Nat) 2000 = true ∧
    ∃ s, pStored.LoadOrStore keyA 9 2000 = .ok ((9, false), s) ∧
      (∃ r, s.Load keyA 2000 = .ok ((none, false), r)) ∧
      (((none : Option Nat), false) ≠ (some 9, true)) := by
  exact ⟨by decide, _, rfl, ⟨_, rfl⟩, by decide⟩

/-- C10 counterexample: storing over the stale `"a"` splices a fresh node into
the chain, but the hash index still maps `"a"` to the OLD node with the old
value 7 and the stale deadline 1100 — not the freshly computed deadline 2100 —
so an immediately following `Load` even misses. -/
theorem c10_counterexample :
    ∃ s, pStored.Store keyA 9 2000 = .ok s ∧
      (∃ em, s.entryMap = some em ∧ lookupId em keyA = some 0) ∧
      s.heap[0]? = some ⟨⟨keyA, 7⟩, 1100, none, none⟩ ∧
      ((1100 : Int) ≠ deadlineOf 100 2000) ∧
      (∃ r, s.Load keyA 2000 = .ok ((none, false), r)) := by
  refine ⟨_, rfl, ⟨_, rfl, rfl⟩, rfl, by decide, ⟨_, rfl⟩⟩

/-- C3 amended: `Delete(k)` unconditionally removes `k` from the hash index
regardless of staleness, and returns the stored value whenever `k` was present
— stale or fresh alike; only an absent key is reported as "absent" (nil). -/
theorem c3_delete_returns_present (m : PtrLinkedTTLMap α) (em : List (String × Nat))
    (k : String) (hm : m.entryMap = some em) :
    (∀ i item, lookupId em k = some i → m.heap[i]? = some item → item.entry.Key = k →
      ∃ m', m.Delete k = .ok (some item.entry.Value, m') ∧
        ∃ em', m'.entryMap = some em' ∧ lookupId em' k = none) ∧
    (lookupId em k = none → m.Delete k = .ok (none, m)) := by
  constructor
  · intro i item hi hn hkey
    unfold PtrLinkedTTLMap.Delete PtrLinkedTTLMap.deleteNode
    rw [hm]
    simp only [hi, hn]
    refine ⟨_, rfl, removeId em item.entry.Key, rfl, ?_⟩
    rw [hkey]
    exact lookupId_removeId em k
  · intro habs
    unfold PtrLinkedTTLMap.Delete
    rw [hm]
    simp only [habs]

theorem c3_witness :
    ∃ m', pStored.Delete keyA = .ok (some 7, m') ∧
      ∃ em', m'.entryMap = some em' ∧ lookupId em' keyA = none :=
  (c3_delete_returns_present pStored [(keyA, 0)] keyA rfl).1 0
    ⟨⟨keyA, 7⟩, 1100, none, none⟩ rfl rfl rfl

theorem getElem?_some_lt {β : Type} {l : List β} {i : Nat} {x : β}
    (h : l[i]? = some x) : i < l.length := by
  by_contra hc
  rw [List.getElem?_eq_none (by omega)] at h
  cases h

theorem getElem?_append_lt {β : Type} {l l2 : List β} {i : Nat} (h : i < l.length) :
    (l ++ l2)[i]? = l[i]? := by
  simp [List.getElem?_append, h]

/-- What overwriting an indexed key actually does in the source: a replacement
node carrying the freshly computed deadline and the old node's links is
allocated; the old neighbours (or, at an endpoint, `head`/`tail`) are rewired
to it, so it occupies the old node's place in the order; but the hash index is
left unchanged — it keeps the old node untouched. -/
def SpliceFacts (m m' : PtrLinkedTTLMap α) (em : List (String × Nat)) (k : String) (v : α) (now : Int) (i : Nat) (item : linkedTTLEntry α) : Prop :=
  m'.entryMap = some em ∧
  m'.heap[i]? = some item ∧
  m'.heap[m.heap.length]? = some ⟨⟨k, v⟩, deadlineOf m.expiration now, item.before, item.after⟩ ∧
  (item.before = none → m'.head = some m.heap.length) ∧
  (∀ b, item.before = some b → m'.head = m.head) ∧
  (item.after = none → m'.tail = some m.heap.length) ∧
  (∀ a, item.after = some a → m'.tail = m.tail) ∧
  (∀ b bn, item.before = some b → m.heap[b]? = some bn →
    m'.heap[b]? = some { bn with after := some m.heap.length }) ∧
  (∀ a an, item.after = some a → m.heap[a]? = some an →
    m'.heap[a]? = some { an with before := some m.heap.length })

/-- The key-present branch of the pointer-accurate `store` produces exactly
the `SpliceFacts` effect, under the pointer sanity every reachable state
enjoys: neighbour addresses are in bounds, distinct from the node itself and
from each other. -/
theorem store_present_splice (m : PtrLinkedTTLMap α) (em : List (String × Nat))
    (k : String) (v : α) (now : Int) (i : Nat) (item : linkedTTLEntry α)
    (hi : lookupId em k = some i) (hn : m.heap[i]? = some item)
    (hbi : item.before ≠ some i) (hai : item.after ≠ some i)
    (hba : ∀ x, item.before = some x → item.after ≠ some x)
    (hbl : ∀ b, item.before = some b → b < m.heap.length)
    (hal : ∀ a, item.after = some a → a < m.heap.length) :
    SpliceFacts m (m.store em k v now) em k v now i item := by
  have hlt : i < m.heap.length := getElem?_some_lt hn
  cases hb : item.before with
  | none =>
    cases ha2 : item.after with
    | none =>
      have hstore : m.store em k v now
          = { m with
              entryMap := some em
              heap := m.heap ++ [(⟨⟨k, v⟩, deadlineOf m.expiration now, none, none⟩ : linkedTTLEntry α)]
              head := some m.heap.length
              tail := some m.heap.length } := by
        simp only [PtrLinkedTTLMap.store, hi, hn, hb, ha2]
      unfold SpliceFacts
      rw [hstore, hb, ha2]
      refine ⟨rfl, ?_, ?_, fun _ => rfl, ?_, fun _ => rfl, ?_, ?_, ?_⟩
      · rw [getElem?_append_lt hlt]
        exact hn
      · exact List.getElem?_concat_length _ _
      · intro b hb2
        cases hb2
      · intro a ha3
        cases ha3
      · intro b bn hb2 _
        cases hb2
      · intro a an ha3 _
        cases ha3
    | some a =>
      have halt : a < m.heap.length := hal a ha2
      have hane : a ≠ i := by
        intro h
        exact hai (by rw [ha2, h])
      cases han : m.heap[a]? with
      | none =>
        rw [List.getElem?_eq_getElem halt] at han
        cases han
      | some an =>
        have e2 : ((m.heap ++ [(⟨⟨k, v⟩, deadlineOf m.expiration now, none, some a⟩ : linkedTTLEntry α)]))[a]? = some an := by
          rw [getElem?_append_lt halt]
          exact han
        have hstore : m.store em k v now
            = { m with
                entryMap := some em
                heap := (m.heap ++ [(⟨⟨k, v⟩, deadlineOf m.expiration now, none, some a⟩ : linkedTTLEntry α)]).set a
                  { an with before := some m.heap.length }
                head := some m.heap.length
                tail := m.tail } := by
          simp only [PtrLinkedTTLMap.store, hi, hn, hb, ha2, e2]
        unfold SpliceFacts
        rw [hstore, hb, ha2]
        refine ⟨rfl, ?_, ?_, fun _ => rfl, ?_, ?_, fun _ _ => rfl, ?_, ?_⟩
        · rw [List.getElem?_set_ne hane, getElem?_append_lt hlt]
          exact hn
        · rw [List.getElem?_set_ne (by omega), List.getElem?_concat_length]
        · intro b hb2
          cases hb2
        · intro h
          cases h
        · intro b bn hb2 _
          cases hb2
        · intro a2 an2 ha3 han2
          injection ha3 with h4
          subst h4
          rw [han] at han2
          injection han2 with h5
          subst h5
          refine List.getElem?_set_self ?_
          simp only [List.length_append, List.length_cons, List.length_nil]
          omega
  | some b =>
    have hblt : b < m.heap.length := hbl b hb
    have hbne : b ≠ i := by
      intro h
      exact hbi (by rw [hb, h])
    cases hbn : m.heap[b]? with
    | none =>
      rw [List.getElem?_eq_getElem hblt] at hbn
      cases hbn
    | some bn =>
      cases ha2 : item.after with
      | none =>
        have e1 : ((m.heap ++ [(⟨⟨k, v⟩, deadlineOf m.expiration now, some b, none⟩ : linkedTTLEntry α)]))[b]? = some bn := by
          rw [getElem?_append_lt hblt]
          exact hbn
        have hstore : m.store em k v now
            = { m with
                entryMap := some em
                heap := (m.heap ++ [(⟨⟨k, v⟩, deadlineOf m.expiration now, some b, none⟩ : linkedTTLEntry α)]).set b
                  { bn with after := some m.heap.length }
                head := m.head
                tail := some m.heap.length } := by
          simp only [PtrLinkedTTLMap.store, hi, hn, hb, ha2, e1]
        unfold SpliceFacts
        rw [hstore, hb, ha2]
        refine ⟨rfl, ?_, ?_, ?_, fun _ _ => rfl, fun _ => rfl, ?_, ?_, ?_⟩
        · rw [List.getElem?_set_ne hbne, getElem?_append_lt hlt]
          exact hn
        · rw [List.getElem?_set_ne (by omega), List.getElem?_concat_length]
        · intro h
          cases h
        · intro a ha3
          cases ha3
        · intro b2 bn2 hb2 hbn2
          injection hb2 with h4
          subst h4
          rw [hbn] at hbn2
          injection hbn2 with h5
          subst h5
          refine List.getElem?_set_self ?_
          simp only [List.length_append, List.length_cons, List.length_nil]
          omega
        · intro a an ha3 _
          cases ha3
      | some a =>
        have halt : a < m.heap.length := hal a ha2
        have hane : a ≠ i := by
          intro h
          exact hai (by rw [ha2, h])
        have hbane : b ≠ a := by
          intro h
          exact hba b hb (by rw [ha2, h])
        cases han : m.heap[a]? with
        | none =>
          rw [List.getElem?_eq_getElem halt] at han
          cases han
        | some an =>
          have e1 : ((m.heap ++ [(⟨⟨k, v⟩, deadlineOf m.expiration now, some b, some a⟩ : linkedTTLEntry α)]))[b]? = some bn := by
            rw [getElem?_append_lt hblt]
            exact hbn
          have e2 : (((m.heap ++ [(⟨⟨k, v⟩, deadlineOf m.expiration now, some b, some a⟩ : linkedTTLEntry α)]).set b
              { bn with after := some m.heap.length }))[a]? = some an := by
            rw [List.getElem?_set_ne hbane, getElem?_append_lt halt]
            exact han
          have hstore : m.store em k v now
              = { m with
                  entryMap := some em
                  heap := ((m.heap ++ [(⟨⟨k, v⟩, deadlineOf m.expiration now, some b, some a⟩ : linkedTTLEntry α)]).set b
                    { bn with after := some m.heap.length }).set a
                    { an with before := some m.heap.length }
                  head := m.head
                  tail := m.tail } := by
            simp only [PtrLinkedTTLMap.store, hi, hn, hb, ha2, e1, e2]
          unfold SpliceFacts
          rw [hstore, hb, ha2]
          refine ⟨rfl, ?_, ?_, ?_, fun _ _ => rfl, ?_, fun _ _ => rfl, ?_, ?_⟩
          · rw [List.getElem?_set_ne hane, List.getElem?_set_ne hbne, getElem?_append_lt hlt]
            exact hn
          · rw [List.getElem?_set_ne (by omega), List.getElem?_set_ne (by omega),
              List.getElem?_concat_length]
          · intro h
            cases h
          · intro h
            cases h
          · intro b2 bn2 hb2 hbn2
            injection hb2 with h4
            subst h4
            rw [hbn] at hbn2
            injection hbn2 with h5
            subst h5
            rw [List.getElem?_set_ne (Ne.symm hbane)]
            refine List.getElem?_set_self ?_
            simp only [List.length_append, List.length_cons, List.length_nil]
            omega
          · intro a2 an2 ha3 han2
            injection ha3 with h4
            subst h4
            rw [han] at han2
            injection han2 with h5
            subst h5
            refine List.getElem?_set_self ?_
            simp only [List.length_set, List.length_append, List.length_cons, List.length_nil]
            omega

/-- C10 amended: storing (via `Store`, `LoadOrStore` or `StoreOrCompare`) over
a key whose entry is stale but still indexed splices the replacement node —
which carries the freshly computed deadline and the old node's links — into
the old node's place in the iteration order: the old neighbours, and at an
endpoint `head`/`tail`, are rewired to it, and nothing is appended after the
old tail unless the key was the tail; the hash index, however, keeps the old
node with its old value and deadline (the line-89 shadowing). -/
theorem c10_inplace_overwrite (m : PtrLinkedTTLMap α) (em : List (String × Nat))
    (k : String) (v : α) (c : Option (α → α → α)) (now : Int) (i : Nat) (item : linkedTTLEntry α)
    (hm : m.entryMap = some em) (hi : lookupId em k = some i) (hn : m.heap[i]? = some item)
    (hstale : item.expired now = true)
    (hbi : item.before ≠ some i) (hai : item.after ≠ some i)
    (hba : ∀ x, item.before = some x → item.after ≠ some x)
    (hbl : ∀ b, item.before = some b → b < m.heap.length)
    (hal : ∀ a, item.after = some a → a < m.heap.length) :
    (∃ m1, m.Store k v now = .ok m1 ∧ SpliceFacts m m1 em k v now i item) ∧
    (∃ m2, m.LoadOrStore k v now = .ok ((v, false), m2) ∧ SpliceFacts m m2 em k v now i item) ∧
    (∃ m3, m.StoreOrCompare k v c now = .ok m3 ∧ SpliceFacts m m3 em k v now i item) := by
  have hsp := store_present_splice m em k v now i item hi hn hbi hai hba hbl hal
  refine ⟨⟨_, ?_, hsp⟩, ⟨_, ?_, hsp⟩, ⟨_, ?_, hsp⟩⟩
  · unfold PtrLinkedTTLMap.Store
    rw [hm]
  · unfold PtrLinkedTTLMap.LoadOrStore
    rw [hm]
    simp only [hi, hn, hstale, if_pos]
  · unfold PtrLinkedTTLMap.StoreOrCompare
    rw [hm]
    simp only [hi, hn, hstale, if_pos]

theorem c10_witness :
    ∃ m1, pThree.Store keyB 9 1140 = .ok m1 ∧
      SpliceFacts pThree m1 [(keyA, 0), (keyB, 1), (keyC, 2)] keyB 9 1140 1
        ⟨⟨keyB, 2⟩, 1101, some 0, some 2⟩ :=
  (c10_inplace_overwrite pThree [(keyA, 0), (keyB, 1), (keyC, 2)] keyB 9 none 1140 1
      ⟨⟨keyB, 2⟩, 1101, some 0, some 2⟩ rfl rfl rfl (by decide) (by decide) (by decide)
      (fun x hx => by cases hx; decide)
      (fun b hb => by cases hb; decide)
      (fun a ha => by cases ha; decide)).1

end Gomap
